import Mathlib

/-!
Verification of the Masterblog API backend (`backend/backend_app.py`).

The Flask service is embedded shallowly:

* a post (a Python dict) is an insertion-ordered association list from
  string keys to JSON scalar values (`JVal`); client-supplied field values
  are modelled as strings or integers;
* the module-level `POSTS` list is threaded explicitly: every handler maps
  the current collection (and the request data) to a response together with
  the collection after the request;
* Python exceptions (`KeyError` on `post["id"]`, `AttributeError` on
  `.lower()` of a non-string, `TypeError` in `max`) are modelled with
  `Except String`; each handler's `try/except` converts an error into the
  500 response, leaving the collection as it was at the raise site;
* string computations (`lower`, `strip`, `in`, `<`) are done on `List Char`
  code-point lists, matching Python's semantics on the ASCII data the
  service handles;
* Python's `sorted` is a stable sort; `List.insertionSort` is stable, so
  sorting keyed posts with it yields the same list `sorted` returns
  (`reverse=True` is the stable sort by the flipped comparison).
-/

/-- A JSON scalar value stored in a post field. -/
inductive JVal where
  | str : String → JVal
  | num : Int → JVal
deriving DecidableEq

/-- A post: a Python dict, i.e. an insertion-ordered association list. -/
abbrev Post := List (String × JVal)

abbrev Posts := List Post

/-- Python `d.get(k)` / `d[k]` lookup: the binding of `k`, if any. -/
def dictGet : Post → String → Option JVal
  | [], _ => none
  | (k2, v) :: rest, k => if k2 = k then some v else dictGet rest k

/-- Python `k in d`. -/
def dictHas (p : Post) (k : String) : Bool :=
  (dictGet p k).isSome

/-- Python `d[k] = v`: replace the value in place if the key exists,
otherwise append the new binding. -/
def dictSet : Post → String → JVal → Post
  | [], k, v => [(k, v)]
  | (k2, v2) :: rest, k, v =>
    if k2 = k then (k2, v) :: rest else (k2, v2) :: dictSet rest k v

/-- Python `str.lower()` (ASCII letters; the service data is ASCII). -/
def lowerChars (l : List Char) : List Char :=
  l.map Char.toLower

/-- `needle` is an initial segment of `hay`. -/
def hasPfx : List Char → List Char → Bool
  | [], _ => true
  | _ :: _, [] => false
  | a :: as, b :: bs => a = b && hasPfx as bs

/-- Python `needle in hay` on strings: substring containment. -/
def strIn (needle : List Char) : List Char → Bool
  | [] => hasPfx needle []
  | c :: rest => hasPfx needle (c :: rest) || strIn needle rest

/-- The characters Python `str.strip()` removes (ASCII whitespace). -/
def isPySpace (c : Char) : Bool :=
  c = ' ' || c = '\t' || c = '\n' || c = '\r' || c = '\x0b' || c = '\x0c'

/-- Python `str.strip()`: drop leading and trailing whitespace. -/
def stripChars (l : List Char) : List Char :=
  ((l.dropWhile isPySpace).reverse.dropWhile isPySpace).reverse

/-- Python `s <= t` on strings: lexicographic by code point. -/
def charListLe : List Char → List Char → Bool
  | [], _ => true
  | _ :: _, [] => false
  | a :: as, b :: bs =>
    if a.toNat < b.toNat then true
    else if b.toNat < a.toNat then false
    else charListLe as bs

/-- `post.get(field, "").lower()`: `AttributeError` when the stored value
is not a string; a missing field defaults to the empty string. -/
def fieldLower (p : Post) (k : String) : Except String (List Char) :=
  match dictGet p k with
  | none => .ok []
  | some (.str s) => .ok (lowerChars s.data)
  | some (.num _) => .error "AttributeError"

/-- One post's test in the comprehension of `search_posts`:
`query_lower in title.lower() or query_lower in content.lower()`
with Python's short-circuit `or`. -/
def post_matches (query_lower : List Char) (p : Post) : Except String Bool := do
  let t ← fieldLower p "title"
  if strIn query_lower t then
    return true
  else
    let c ← fieldLower p "content"
    return (strIn query_lower c)

/-- The list comprehension in `search_posts`, evaluated left to right. -/
def filterMatches (query_lower : List Char) : Posts → Except String Posts
  | [] => .ok []
  | p :: rest => do
    let b ← post_matches query_lower p
    let r ← filterMatches query_lower rest
    return if b then p :: r else r

/-- `search_posts(posts, query)`: `if not query: return posts`, else filter
by the lowercased query. -/
def search_posts (posts : Posts) (query : List Char) : Except String Posts :=
  if query.isEmpty then .ok posts
  else filterMatches (lowerChars query) posts

/-- The sort keys `key=lambda post: post.get(sort_field, "").lower()`,
computed in list order as CPython does. -/
def keyedPosts (sort_field : String) : Posts → Except String (List (List Char × Post))
  | [] => .ok []
  | p :: rest => do
    let k ← fieldLower p sort_field
    let r ← keyedPosts sort_field rest
    return (k, p) :: r

/-- Ascending order on keyed posts. -/
def keyLe (a b : List Char × Post) : Prop :=
  charListLe a.1 b.1 = true

/-- Descending order on keyed posts (`reverse=True`). -/
def keyGe (a b : List Char × Post) : Prop :=
  charListLe b.1 a.1 = true

instance : DecidableRel keyLe :=
  fun a b => inferInstanceAs (Decidable (charListLe a.1 b.1 = true))

instance : DecidableRel keyGe :=
  fun a b => inferInstanceAs (Decidable (charListLe b.1 a.1 = true))

/-- `sort_posts(posts, sort_field, direction)`: identity on an unrecognized
field, otherwise the stable sort by the lowercased field,
descending when `direction == 'desc'`. -/
def sort_posts (posts : Posts) (sort_field direction : String) : Except String Posts :=
  if sort_field = "title" ∨ sort_field = "content" then do
    let keyed ← keyedPosts sort_field posts
    if direction = "desc" then
      return (List.insertionSort keyGe keyed).map Prod.snd
    else
      return (List.insertionSort keyLe keyed).map Prod.snd
  else .ok posts

/-- A value inside a JSON error or confirmation body. -/
inductive BVal where
  | str : String → BVal
  | strList : List String → BVal
deriving DecidableEq

/-- A JSON response body: a post object, an array of posts, or a
message/error object. -/
inductive Body where
  | postObj : Post → Body
  | postArr : Posts → Body
  | errObj : List (String × BVal) → Body
deriving DecidableEq

/-- Lookup in a message/error body (used to state claims about fields such
as `missing_fields` and `message`). -/
def errGet : List (String × BVal) → String → Option BVal
  | [], _ => none
  | (k2, v) :: rest, k => if k2 = k then some v else errGet rest k

/-- Field lookup in a response body when it is a message/error object. -/
def bodyGet (b : Body) (k : String) : Option BVal :=
  match b with
  | .errObj fields => errGet fields k
  | _ => none

/-- An HTTP response: status code and JSON body. -/
structure Response where
  status : Nat
  body : Body
deriving DecidableEq

/-- Query parameters of `GET /api/posts`; `none` means the parameter is
absent from the request. -/
structure QueryParams where
  search : Option String
  sort : Option String
  direction : Option String
deriving DecidableEq

/-- The 500 response every handler's `except` clause produces. -/
def serverError (e : String) : Response :=
  ⟨500, .errObj [("error", .str "Interner Serverfehler"), ("details", .str e)]⟩

/-- The 400 response for a missing/empty request body. -/
def noDataError : Response :=
  ⟨400, .errObj [("error", .str "Keine Daten gesendet")]⟩

/-- The 404 response of `update_post` and `delete_post`. -/
def notFound (pid : Int) : Response :=
  ⟨404, .errObj [("error", .str "Post nicht gefunden"),
                 ("message", .str ("Kein Post mit ID " ++ toString pid ++ " vorhanden."))]⟩

/-- The 400 response for an invalid sort direction. -/
def invalidDirection : Response :=
  ⟨400, .errObj [("error",
    .str "Ungültige Sortierrichtung. Erlaubt: \x27asc\x27, \x27desc\x27")]⟩

/-- The body of `list_posts` inside its `try`: copy, search, validate the
direction when a sort field is given, sort. -/
def list_posts_core (posts : Posts) (q : QueryParams) : Except String Response := do
  let result0 := posts
  let search_query := stripChars ((q.search.getD "").data)
  let result1 ← search_posts result0 search_query
  let sort_field := q.sort.getD ""
  let direction := q.direction.getD "asc"
  if sort_field ≠ "" then
    if direction ≠ "asc" ∧ direction ≠ "desc" then
      return invalidDirection
    else
      let result2 ← sort_posts result1 sort_field direction
      return ⟨200, .postArr result2⟩
  else
    return ⟨200, .postArr result1⟩

/-- `GET /api/posts`. The handler works on a copy and never writes the
module state, so the collection comes back unchanged. -/
def list_posts (posts : Posts) (q : QueryParams) : Response × Posts :=
  match list_posts_core posts q with
  | .ok r => (r, posts)
  | .error e => (serverError e, posts)

/-- `post["id"]` as an integer: `KeyError` when absent, `TypeError` when
the ids are not integers (they then fail `max`/`+ 1`). -/
def getId (p : Post) : Except String Int :=
  match dictGet p "id" with
  | some (.num n) => .ok n
  | some (.str _) => .error "TypeError"
  | none => .error "KeyError"

/-- The running maximum of `max((post["id"] for post in POSTS), default=0)`. -/
def maxFrom (acc : Int) : Posts → Except String Int
  | [] => .ok acc
  | p :: rest => do
    let i ← getId p
    maxFrom (max acc i) rest

/-- `max((post["id"] for post in POSTS), default=0)`. -/
def maxIds : Posts → Except String Int
  | [] => .ok 0
  | p :: rest => do
    let i ← getId p
    maxFrom i rest

/-- `POST /api/posts`. `body = none` models a request without JSON data;
Python's `if not new_post` also treats the empty object as no data. -/
def add_post (posts : Posts) (body : Option Post) : Response × Posts :=
  match body with
  | none => (noDataError, posts)
  | some new0 =>
    if new0.isEmpty then (noDataError, posts)
    else
      let missing := (if dictHas new0 "title" then [] else ["title"]) ++
                     (if dictHas new0 "content" then [] else ["content"])
      if missing.isEmpty then
        match maxIds posts with
        | .error e => (serverError e, posts)
        | .ok m =>
          let newPost := dictSet new0 "id" (.num (m + 1))
          (⟨201, .postObj newPost⟩, posts ++ [newPost])
      else
        (⟨400, .errObj [("error", .str "Fehlende Pflichtfelder"),
                        ("missing_fields", .strList missing)]⟩, posts)

/-- `post["id"] == post_id`: `KeyError` when the key is absent; a
non-integer id compares unequal to the integer `post_id`. -/
def idEq (p : Post) (pid : Int) : Except String Bool :=
  match dictGet p "id" with
  | some (.num n) => .ok (decide (n = pid))
  | some (.str _) => .ok false
  | none => .error "KeyError"

/-- The merge loop of `update_post`:
`for key, value in updated_data.items(): if key != "id": post[key] = value`. -/
def mergePost (p : Post) (upd : Post) : Post :=
  upd.foldl (fun acc kv => if kv.1 = "id" then acc else dictSet acc kv.1 kv.2) p

/-- The `for post in POSTS` search of `update_post`: at the first id match,
the merged post and the collection with that post updated in place. -/
def upd_loop (upd : Post) (pid : Int) : Posts → Except String (Option (Post × Posts))
  | [] => .ok none
  | p :: rest => do
    let hit ← idEq p pid
    if hit then
      let p2 := mergePost p upd
      return some (p2, p2 :: rest)
    else
      match ← upd_loop upd pid rest with
      | none => return none
      | some (q, rest2) => return some (q, p :: rest2)

/-- `PUT /api/posts/<post_id>`. -/
def update_post (posts : Posts) (pid : Int) (body : Option Post) : Response × Posts :=
  match body with
  | none => (noDataError, posts)
  | some upd =>
    if upd.isEmpty then (noDataError, posts)
    else
      match upd_loop upd pid posts with
      | .error e => (serverError e, posts)
      | .ok none => (notFound pid, posts)
      | .ok (some (p2, posts2)) => (⟨200, .postObj p2⟩, posts2)

/-- The `for i, post in enumerate(POSTS)` search of `delete_post`: the
collection with the first id match removed. -/
def del_loop (pid : Int) : Posts → Except String (Option Posts)
  | [] => .ok none
  | p :: rest => do
    let hit ← idEq p pid
    if hit then
      return some rest
    else
      match ← del_loop pid rest with
      | none => return none
      | some rest2 => return some (p :: rest2)

/-- `DELETE /api/posts/<post_id>`. -/
def delete_post (posts : Posts) (pid : Int) : Response × Posts :=
  match del_loop pid posts with
  | .error e => (serverError e, posts)
  | .ok none => (notFound pid, posts)
  | .ok (some posts2) =>
    (⟨200, .errObj [("message",
      .str ("Post with id " ++ toString pid ++ " has been deleted successfully."))]⟩, posts2)

/-- A request to the service. -/
inductive Request where
  | get (q : QueryParams)
  | post (body : Option Post)
  | put (pid : Int) (body : Option Post)
  | delete (pid : Int)

/-- Dispatch: one request against the current collection. -/
def handle (posts : Posts) : Request → Response × Posts
  | .get q => list_posts posts q
  | .post b => add_post posts b
  | .put pid b => update_post posts pid b
  | .delete pid => delete_post posts pid

/-- The three seed posts the module starts with. -/
def POSTS : Posts :=
  [[("id", .num 1), ("title", .str "Hello World"), ("content", .str "This is my first post.")],
   [("id", .num 2), ("title", .str "Flask Tutorial"), ("content", .str "Learn Flask with me.")],
   [("id", .num 3), ("title", .str "Python Tips"), ("content", .str "Useful Python tricks.")]]

/-- The post carries an integer `"id"`. -/
def hasIntId (p : Post) : Bool :=
  match dictGet p "id" with
  | some (.num _) => true
  | _ => false

/-- Every post of the collection carries an integer `"id"` (true of the
seed data and preserved by the API, which only ever assigns integer ids). -/
def AllIntIds (posts : Posts) : Prop :=
  ∀ p ∈ posts, hasIntId p = true

/-- `"title"` and `"content"`, when present, hold strings. -/
def strField (p : Post) (k : String) : Bool :=
  match dictGet p k with
  | some (.num _) => false
  | _ => true

/-- Search/sort never hit a non-string `title`/`content` (true of the seed
data; a non-string field would surface as a 500). -/
def StrFields (posts : Posts) : Prop :=
  ∀ p ∈ posts, strField p "title" = true ∧ strField p "content" = true

/-- The stored id values, in collection order. -/
def idsOf (posts : Posts) : List (Option JVal) :=
  posts.map (fun p => dictGet p "id")

/-- The uniqueness invariant: stored ids are pairwise distinct. -/
def DistinctIds (posts : Posts) : Prop :=
  (idsOf posts).Pairwise (· ≠ ·)

/-- The post's id is the integer `pid`. -/
def hasId (p : Post) (pid : Int) : Prop :=
  dictGet p "id" = some (.num pid)

instance (p : Post) (pid : Int) : Decidable (hasId p pid) :=
  inferInstanceAs (Decidable (_ = _))

instance (posts : Posts) : Decidable (AllIntIds posts) :=
  inferInstanceAs (Decidable (∀ p ∈ posts, hasIntId p = true))

instance (posts : Posts) : Decidable (StrFields posts) :=
  inferInstanceAs (Decidable (∀ p ∈ posts, strField p "title" = true ∧ strField p "content" = true))

instance (posts : Posts) : Decidable (DistinctIds posts) :=
  inferInstanceAs (Decidable ((idsOf posts).Pairwise (· ≠ ·)))

/-- The integer id of a post (meaningful under `AllIntIds`). -/
def idVal (p : Post) : Int :=
  match dictGet p "id" with
  | some (.num n) => n
  | _ => 0

/-- Modelled from the spec: "the maximum id currently in the collection",
0 for the empty collection (so that the first assigned id is 1). -/
def specMaxId : Posts → Int
  | [] => 0
  | p :: rest => (rest.map idVal).foldl max (idVal p)

/-- Modelled from the spec: the text of a field for matching and sorting,
"missing field treated as empty string". -/
def specFieldText (p : Post) (k : String) : List Char :=
  match dictGet p k with
  | some (.str s) => s.data
  | _ => []

/-- Modelled from the spec: "case-insensitive substring match on `title`
or `content`". -/
def specMatches (query : List Char) (p : Post) : Bool :=
  strIn (lowerChars query) (lowerChars (specFieldText p "title")) ||
  strIn (lowerChars query) (lowerChars (specFieldText p "content"))

/-- Modelled from the spec: the search filter; "empty/absent query returns
all". -/
def specFiltered (posts : Posts) (query : List Char) : Posts :=
  if query.isEmpty then posts else posts.filter (specMatches query)

/-- Modelled from the spec: the sort key, "the field's lowercased text". -/
def specKey (sort_field : String) (p : Post) : List Char :=
  lowerChars (specFieldText p sort_field)

/-! ### Dictionary lemmas -/

theorem dictGet_set_self (p : Post) (k : String) (v : JVal) :
    dictGet (dictSet p k v) k = some v := by
  induction p with
  | nil => simp [dictSet, dictGet]
  | cons kv rest ih =>
    obtain ⟨k2, v2⟩ := kv
    by_cases h : k2 = k
    · simp [dictSet, h, dictGet]
    · simp [dictSet, h, dictGet, ih]

theorem dictGet_set_other (p : Post) (k k2 : String) (v : JVal) (h : k2 ≠ k) :
    dictGet (dictSet p k v) k2 = dictGet p k2 := by
  have hk : k ≠ k2 := fun hh => h hh.symm
  induction p with
  | nil => simp [dictSet, dictGet, hk]
  | cons kv rest ih =>
    obtain ⟨k3, v3⟩ := kv
    by_cases h3 : k3 = k
    · subst h3
      simp [dictSet, dictGet, hk]
    · simp [dictSet, h3, dictGet, ih]

theorem mergePost_cons (p : Post) (kv : String × JVal) (rest : Post) :
    mergePost p (kv :: rest) =
      mergePost (if kv.1 = "id" then p else dictSet p kv.1 kv.2) rest := by
  by_cases h : kv.1 = "id" <;> simp [mergePost, List.foldl, h]

theorem mergePost_get_id (upd p : Post) :
    dictGet (mergePost p upd) "id" = dictGet p "id" := by
  induction upd generalizing p with
  | nil => rfl
  | cons kv rest ih =>
    rw [mergePost_cons]
    by_cases h : kv.1 = "id"
    · simp [h, ih]
    · rw [if_neg h, ih, dictGet_set_other _ _ _ _ (fun hh => h hh.symm)]

theorem mergePost_get_not_mem (upd p : Post) (k : String) (h : ∀ v, (k, v) ∉ upd) :
    dictGet (mergePost p upd) k = dictGet p k := by
  induction upd generalizing p with
  | nil => rfl
  | cons kv rest ih =>
    have hk : kv.1 ≠ k := by
      intro hh
      exact h kv.2 (by rw [← hh]; exact List.mem_cons_self _ _)
    have hrest : ∀ v, (k, v) ∉ rest := fun v hv => h v (List.mem_cons_of_mem _ hv)
    rw [mergePost_cons]
    by_cases hid : kv.1 = "id"
    · rw [if_pos hid, ih _ hrest]
    · rw [if_neg hid, ih _ hrest, dictGet_set_other _ _ _ _ (fun hh => hk hh.symm)]

theorem mergePost_get_mem (upd p : Post) (k : String) (v : JVal)
    (hnd : (upd.map Prod.fst).Nodup) (hmem : (k, v) ∈ upd) (hk : k ≠ "id") :
    dictGet (mergePost p upd) k = some v := by
  induction upd generalizing p with
  | nil => cases hmem
  | cons kv rest ih =>
    rw [List.map_cons, List.nodup_cons] at hnd
    rcases List.mem_cons.mp hmem with heq | hmem2
    · subst heq
      rw [mergePost_cons, if_neg hk]
      have hrest : ∀ v2, (k, v2) ∉ rest := by
        intro v2 hv2
        exact hnd.1 (List.mem_map.mpr ⟨(k, v2), hv2, rfl⟩)
      rw [mergePost_get_not_mem _ _ _ hrest, dictGet_set_self]
    · have hk1 : kv.1 ≠ k := by
        intro hh
        exact hnd.1 (hh ▸ List.mem_map.mpr ⟨(k, v), hmem2, rfl⟩)
      rw [mergePost_cons]
      by_cases hid : kv.1 = "id"
      · rw [if_pos hid]
        exact ih _ hnd.2 hmem2
      · rw [if_neg hid]
        exact ih _ hnd.2 hmem2

/-! ### `maxIds` lemmas -/

theorem getId_ok_of_intId {p : Post} (h : hasIntId p = true) :
    getId p = .ok (idVal p) := by
  unfold hasIntId at h
  unfold getId idVal
  cases hg : dictGet p "id" with
  | none => rw [hg] at h; cases h
  | some v =>
    cases v with
    | str s => rw [hg] at h; cases h
    | num n => rfl

theorem maxFrom_ok (l : Posts) (acc : Int) (h : ∀ p ∈ l, hasIntId p = true) :
    maxFrom acc l = .ok ((l.map idVal).foldl max acc) := by
  induction l generalizing acc with
  | nil => rfl
  | cons p rest ih =>
    have hp := getId_ok_of_intId (h p (List.mem_cons_self _ _))
    have hrest : ∀ q ∈ rest, hasIntId q = true := fun q hq => h q (List.mem_cons_of_mem _ hq)
    simp only [maxFrom, hp, Except.bind, List.map_cons, List.foldl_cons]
    exact ih (max acc (idVal p)) hrest

theorem maxIds_ok (posts : Posts) (h : AllIntIds posts) :
    maxIds posts = .ok (specMaxId posts) := by
  cases posts with
  | nil => rfl
  | cons p rest =>
    have hp := getId_ok_of_intId (h p (List.mem_cons_self _ _))
    have hrest : ∀ q ∈ rest, hasIntId q = true := fun q hq => h q (List.mem_cons_of_mem _ hq)
    simp only [maxIds, hp, Except.bind, specMaxId]
    exact maxFrom_ok rest (idVal p) hrest

theorem maxFrom_le (l : Posts) (acc : Int) (m : Int) (h : maxFrom acc l = .ok m) :
    acc ≤ m := by
  induction l generalizing acc with
  | nil =>
    simp only [maxFrom, Except.ok.injEq] at h
    exact h.le
  | cons p rest ih =>
    simp only [maxFrom] at h
    cases hg : getId p with
    | error e => rw [hg] at h; cases h
    | ok n =>
      rw [hg] at h
      exact le_trans (le_max_left acc n) (ih (max acc n) h)

theorem maxFrom_bound (l : Posts) (acc : Int) (m : Int) (h : maxFrom acc l = .ok m) :
    ∀ p ∈ l, ∃ n : Int, dictGet p "id" = some (.num n) ∧ n ≤ m := by
  induction l generalizing acc with
  | nil => intro p hp; cases hp
  | cons p rest ih =>
    simp only [maxFrom] at h
    cases hg : getId p with
    | error e => rw [hg] at h; cases h
    | ok n =>
      rw [hg] at h
      intro q hq
      rcases List.mem_cons.mp hq with heq | hmem
      · subst heq
        refine ⟨n, ?_, ?_⟩
        · unfold getId at hg
          cases hd : dictGet q "id" with
          | none => rw [hd] at hg; cases hg
          | some v =>
            cases v with
            | str s => rw [hd] at hg; cases hg
            | num n2 => rw [hd] at hg; cases hg; rfl
        · exact le_trans (le_max_right acc n) (maxFrom_le rest _ m h)
      · exact ih (max acc n) h q hmem

theorem maxIds_bound (posts : Posts) (m : Int) (h : maxIds posts = .ok m) :
    ∀ p ∈ posts, ∃ n : Int, dictGet p "id" = some (.num n) ∧ n ≤ m := by
  cases posts with
  | nil => intro p hp; cases hp
  | cons p rest =>
    simp only [maxIds] at h
    cases hg : getId p with
    | error e => rw [hg] at h; cases h
    | ok n =>
      rw [hg] at h
      intro q hq
      rcases List.mem_cons.mp hq with heq | hmem
      · subst heq
        refine ⟨n, ?_, maxFrom_le rest _ m h⟩
        unfold getId at hg
        cases hd : dictGet q "id" with
        | none => rw [hd] at hg; cases hg
        | some v =>
          cases v with
          | str s => rw [hd] at hg; cases hg
          | num n2 => rw [hd] at hg; cases hg; rfl
      · exact maxFrom_bound rest n m h q hmem

/-! ### `idEq` and loop lemmas -/

theorem idEq_true_of_hasId {p : Post} {pid : Int} (h : hasId p pid) :
    idEq p pid = .ok true := by
  unfold hasId at h
  unfold idEq
  rw [h]
  simp

theorem idEq_false_of_not_hasId {p : Post} {pid : Int}
    (hint : hasIntId p = true) (h : ¬ hasId p pid) :
    idEq p pid = .ok false := by
  unfold hasIntId at hint
  unfold hasId at h
  unfold idEq
  cases hg : dictGet p "id" with
  | none => rw [hg] at hint; cases hint
  | some v =>
    cases v with
    | str s => rfl
    | num n =>
      rw [hg] at h
      simp only [Except.ok.injEq, decide_eq_false_iff_not]
      intro hn
      exact h (by rw [hn])

@[simp] theorem ok_bind {α β : Type} (a : α) (f : α → Except String β) :
    (Except.ok a >>= f) = f a := rfl

@[simp] theorem pure_ok {α : Type} (a : α) :
    (pure a : Except String α) = Except.ok a := rfl

theorem upd_loop_none (upd : Post) (pid : Int) (l : Posts)
    (hint : ∀ p ∈ l, hasIntId p = true) (h : ∀ p ∈ l, ¬ hasId p pid) :
    upd_loop upd pid l = .ok none := by
  induction l with
  | nil => rfl
  | cons p rest ih =>
    have hp := idEq_false_of_not_hasId (hint p (List.mem_cons_self _ _))
      (h p (List.mem_cons_self _ _))
    have ih2 := ih (fun q hq => hint q (List.mem_cons_of_mem _ hq))
      (fun q hq => h q (List.mem_cons_of_mem _ hq))
    simp [upd_loop, hp, ih2]

theorem upd_loop_found (upd : Post) (pid : Int) (l1 : Posts) (p : Post) (l2 : Posts)
    (hint : ∀ q ∈ l1, hasIntId q = true) (h1 : ∀ q ∈ l1, ¬ hasId q pid)
    (hp : hasId p pid) :
    upd_loop upd pid (l1 ++ p :: l2) =
      .ok (some (mergePost p upd, l1 ++ mergePost p upd :: l2)) := by
  induction l1 with
  | nil => simp [upd_loop, idEq_true_of_hasId hp]
  | cons q l1' ih =>
    have hq := idEq_false_of_not_hasId (hint q (List.mem_cons_self _ _))
      (h1 q (List.mem_cons_self _ _))
    have ih2 := ih (fun r hr => hint r (List.mem_cons_of_mem _ hr))
      (fun r hr => h1 r (List.mem_cons_of_mem _ hr))
    simp [upd_loop, hq, ih2]

@[simp] theorem excBind_ok {α β : Type} (a : α) (f : α → Except String β) :
    Except.bind (Except.ok a) f = f a := rfl

@[simp] theorem excBind_error {α β : Type} (e : String) (f : α → Except String β) :
    Except.bind (Except.error e) f = Except.error e := rfl

theorem upd_loop_cons (upd : Post) (pid : Int) (p : Post) (rest : Posts) :
    upd_loop upd pid (p :: rest) = Except.bind (idEq p pid) (fun hit =>
      if hit then Except.ok (some (mergePost p upd, mergePost p upd :: rest))
      else Except.bind (upd_loop upd pid rest) (fun r =>
        match r with
        | none => Except.ok none
        | some (q, rest2) => Except.ok (some (q, p :: rest2)))) := rfl

theorem del_loop_cons (pid : Int) (p : Post) (rest : Posts) :
    del_loop pid (p :: rest) = Except.bind (idEq p pid) (fun hit =>
      if hit then Except.ok (some rest)
      else Except.bind (del_loop pid rest) (fun r =>
        match r with
        | none => Except.ok none
        | some rest2 => Except.ok (some (p :: rest2)))) := rfl

theorem upd_loop_ids (upd : Post) (pid : Int) (l : Posts) (p2 : Post) (l2 : Posts)
    (h : upd_loop upd pid l = .ok (some (p2, l2))) :
    idsOf l2 = idsOf l := by
  induction l generalizing p2 l2 with
  | nil => cases h
  | cons p rest ih =>
    rw [upd_loop_cons] at h
    cases he : idEq p pid with
    | error e => rw [he, excBind_error] at h; cases h
    | ok hit =>
      rw [he, excBind_ok] at h
      cases hit with
      | true =>
        rw [if_pos rfl] at h
        injection h with h1
        injection h1 with h2
        injection h2 with h3 h4
        subst h4
        simp [idsOf, mergePost_get_id]
      | false =>
        rw [if_neg Bool.false_ne_true] at h
        cases hr : upd_loop upd pid rest with
        | error e => rw [hr, excBind_error] at h; cases h
        | ok r =>
          rw [hr, excBind_ok] at h
          cases r with
          | none => cases h
          | some qr =>
            obtain ⟨q, rest2⟩ := qr
            injection h with h1
            injection h1 with h2
            injection h2 with h3 h4
            subst h4
            have hids := ih q rest2 hr
            simp only [idsOf, List.map_cons] at hids ⊢
            rw [hids]

theorem del_loop_none (pid : Int) (l : Posts)
    (hint : ∀ p ∈ l, hasIntId p = true) (h : ∀ p ∈ l, ¬ hasId p pid) :
    del_loop pid l = .ok none := by
  induction l with
  | nil => rfl
  | cons p rest ih =>
    have hp := idEq_false_of_not_hasId (hint p (List.mem_cons_self _ _))
      (h p (List.mem_cons_self _ _))
    have ih2 := ih (fun q hq => hint q (List.mem_cons_of_mem _ hq))
      (fun q hq => h q (List.mem_cons_of_mem _ hq))
    simp [del_loop, hp, ih2]

theorem del_loop_found (pid : Int) (l1 : Posts) (p : Post) (l2 : Posts)
    (hint : ∀ q ∈ l1, hasIntId q = true) (h1 : ∀ q ∈ l1, ¬ hasId q pid)
    (hp : hasId p pid) :
    del_loop pid (l1 ++ p :: l2) = .ok (some (l1 ++ l2)) := by
  induction l1 with
  | nil => simp [del_loop, idEq_true_of_hasId hp]
  | cons q l1' ih =>
    have hq := idEq_false_of_not_hasId (hint q (List.mem_cons_self _ _))
      (h1 q (List.mem_cons_self _ _))
    have ih2 := ih (fun r hr => hint r (List.mem_cons_of_mem _ hr))
      (fun r hr => h1 r (List.mem_cons_of_mem _ hr))
    simp [del_loop, hq, ih2]

theorem del_loop_sublist (pid : Int) (l : Posts) (l2 : Posts)
    (h : del_loop pid l = .ok (some l2)) :
    l2.Sublist l := by
  induction l generalizing l2 with
  | nil => cases h
  | cons p rest ih =>
    rw [del_loop_cons] at h
    cases he : idEq p pid with
    | error e => rw [he, excBind_error] at h; cases h
    | ok hit =>
      rw [he, excBind_ok] at h
      cases hit with
      | true =>
        rw [if_pos rfl] at h
        injection h with h1
        injection h1 with h2
        subst h2
        exact List.sublist_cons_self p rest
      | false =>
        rw [if_neg Bool.false_ne_true] at h
        cases hr : del_loop pid rest with
        | error e => rw [hr, excBind_error] at h; cases h
        | ok r =>
          rw [hr, excBind_ok] at h
          cases r with
          | none => cases h
          | some rest2 =>
            injection h with h1
            injection h1 with h2
            subst h2
            exact (ih rest2 hr).cons₂ p

/-! ### The code-point order is total and transitive -/

theorem charListLe_total (a b : List Char) :
    charListLe a b = true ∨ charListLe b a = true := by
  induction a generalizing b with
  | nil => left; rfl
  | cons x as ih =>
    cases b with
    | nil => right; rfl
    | cons y bs =>
      rcases Nat.lt_trichotomy x.toNat y.toNat with h | h | h
      · left
        simp [charListLe, h]
      · have h1 : ¬ x.toNat < y.toNat := by omega
        have h2 : ¬ y.toNat < x.toNat := by omega
        simpa [charListLe, h1, h2] using ih bs
      · right
        simp [charListLe, h]

theorem charListLe_trans {a b c : List Char}
    (h1 : charListLe a b = true) (h2 : charListLe b c = true) :
    charListLe a c = true := by
  induction a generalizing b c with
  | nil => rfl
  | cons x as ih =>
    cases b with
    | nil => cases h1
    | cons y bs =>
      cases c with
      | nil => cases h2
      | cons z cs =>
        simp only [charListLe] at h1 h2 ⊢
        by_cases hxy : x.toNat < y.toNat
        · by_cases hyz : y.toNat < z.toNat
          · simp [show x.toNat < z.toNat by omega]
          · rw [if_neg hyz] at h2
            by_cases hzy : z.toNat < y.toNat
            · rw [if_pos hzy] at h2; cases h2
            · simp [show x.toNat < z.toNat by omega]
        · rw [if_neg hxy] at h1
          by_cases hyx : y.toNat < x.toNat
          · rw [if_pos hyx] at h1; cases h1
          · rw [if_neg hyx] at h1
            by_cases hyz : y.toNat < z.toNat
            · simp [show x.toNat < z.toNat by omega]
            · rw [if_neg hyz] at h2
              by_cases hzy : z.toNat < y.toNat
              · rw [if_pos hzy] at h2; cases h2
              · rw [if_neg hzy] at h2
                have hxz : ¬ x.toNat < z.toNat := by omega
                have hzx : ¬ z.toNat < x.toNat := by omega
                rw [if_neg hxz, if_neg hzx]
                exact ih h1 h2

instance : IsTotal (List Char × Post) keyLe :=
  ⟨fun a b => charListLe_total a.1 b.1⟩

instance : IsTrans (List Char × Post) keyLe :=
  ⟨fun _ _ _ h1 h2 => charListLe_trans h1 h2⟩

instance : IsTotal (List Char × Post) keyGe :=
  ⟨fun a b => (charListLe_total b.1 a.1).symm.imp id id |>.symm⟩

instance : IsTrans (List Char × Post) keyGe :=
  ⟨fun _ _ _ h1 h2 => charListLe_trans h2 h1⟩

/-! ### Search and sort reduce to the spec-side functions -/

theorem fieldLower_ok {p : Post} {k : String} (h : strField p k = true) :
    fieldLower p k = .ok (lowerChars (specFieldText p k)) := by
  unfold strField at h
  unfold fieldLower specFieldText
  cases hg : dictGet p k with
  | none => rfl
  | some v =>
    cases v with
    | str s => rfl
    | num n => rw [hg] at h; cases h

theorem post_matches_ok {ql : List Char} {p : Post}
    (ht : strField p "title" = true) (hc : strField p "content" = true) :
    post_matches ql p =
      .ok (strIn ql (lowerChars (specFieldText p "title")) ||
           strIn ql (lowerChars (specFieldText p "content"))) := by
  unfold post_matches
  rw [fieldLower_ok ht, ok_bind]
  by_cases hm : strIn ql (lowerChars (specFieldText p "title")) = true
  · simp [hm]
  · rw [Bool.not_eq_true] at hm
    simp [hm, fieldLower_ok hc]

theorem filterMatches_ok {ql : List Char} {l : Posts}
    (h : ∀ p ∈ l, strField p "title" = true ∧ strField p "content" = true) :
    filterMatches ql l =
      .ok (l.filter (fun p => strIn ql (lowerChars (specFieldText p "title")) ||
                              strIn ql (lowerChars (specFieldText p "content")))) := by
  induction l with
  | nil => rfl
  | cons p rest ih =>
    have hp := h p (List.mem_cons_self _ _)
    have ih2 := ih (fun q hq => h q (List.mem_cons_of_mem _ hq))
    simp only [filterMatches, post_matches_ok hp.1 hp.2, ok_bind, ih2, List.filter_cons]
    by_cases hm : (strIn ql (lowerChars (specFieldText p "title")) ||
                   strIn ql (lowerChars (specFieldText p "content"))) = true
    · simp [hm]
    · rw [Bool.not_eq_true] at hm
      simp [hm]

theorem search_posts_ok {posts : Posts} {query : List Char} (h : StrFields posts) :
    search_posts posts query = .ok (specFiltered posts query) := by
  unfold search_posts specFiltered specMatches
  by_cases he : query.isEmpty
  · simp [he]
  · simp only [he, if_false, Bool.false_eq_true]
    exact filterMatches_ok h

theorem keyedPosts_ok {f : String} {l : Posts} (h : ∀ p ∈ l, strField p f = true) :
    keyedPosts f l = .ok (l.map (fun p => (specKey f p, p))) := by
  induction l with
  | nil => rfl
  | cons p rest ih =>
    have hp := fieldLower_ok (h p (List.mem_cons_self _ _))
    have ih2 := ih (fun q hq => h q (List.mem_cons_of_mem _ hq))
    simp [keyedPosts, hp, ih2, specKey]

theorem sort_posts_other {posts : Posts} {f d : String}
    (h : ¬ (f = "title" ∨ f = "content")) :
    sort_posts posts f d = .ok posts := by
  simp [sort_posts, h]

theorem sort_posts_ok {posts : Posts} {f d : String}
    (hf : f = "title" ∨ f = "content") (h : ∀ p ∈ posts, strField p f = true) :
    ∃ L, sort_posts posts f d = .ok L ∧ L.Perm posts ∧
      (d = "desc" →
        L.Pairwise (fun a b => charListLe (specKey f b) (specKey f a) = true)) ∧
      (d ≠ "desc" →
        L.Pairwise (fun a b => charListLe (specKey f a) (specKey f b) = true)) := by
  have hkey := keyedPosts_ok (f := f) (l := posts) h
  have hmem : ∀ x ∈ posts.map (fun p => (specKey f p, p)), x.1 = specKey f x.2 := by
    intro x hx
    obtain ⟨p, hp, rfl⟩ := List.mem_map.mp hx
    rfl
  by_cases hd : d = "desc"
  · refine ⟨(List.insertionSort keyGe (posts.map (fun p => (specKey f p, p)))).map Prod.snd,
      ?_, ?_, ?_, ?_⟩
    · simp [sort_posts, hf, hkey, hd]
    · have hperm := List.perm_insertionSort keyGe (posts.map (fun p => (specKey f p, p)))
      have := hperm.map Prod.snd
      simpa [Function.comp_def] using this
    · intro _
      have hs := List.sorted_insertionSort keyGe (posts.map (fun p => (specKey f p, p)))
      have hmem2 : ∀ x ∈ List.insertionSort keyGe (posts.map (fun p => (specKey f p, p))),
          x.1 = specKey f x.2 := by
        intro x hx
        exact hmem x ((List.mem_insertionSort keyGe).mp hx)
      rw [List.pairwise_map]
      refine hs.imp_of_mem ?_
      intro a b ha hb hab
      rw [keyGe, hmem2 a ha, hmem2 b hb] at hab
      exact hab
    · intro hcon
      exact absurd hd hcon
  · refine ⟨(List.insertionSort keyLe (posts.map (fun p => (specKey f p, p)))).map Prod.snd,
      ?_, ?_, ?_, ?_⟩
    · simp [sort_posts, hf, hkey, hd]
    · have hperm := List.perm_insertionSort keyLe (posts.map (fun p => (specKey f p, p)))
      have := hperm.map Prod.snd
      simpa [Function.comp_def] using this
    · intro hcon
      exact absurd hcon hd
    · intro _
      have hs := List.sorted_insertionSort keyLe (posts.map (fun p => (specKey f p, p)))
      have hmem2 : ∀ x ∈ List.insertionSort keyLe (posts.map (fun p => (specKey f p, p))),
          x.1 = specKey f x.2 := by
        intro x hx
        exact hmem x ((List.mem_insertionSort keyLe).mp hx)
      rw [List.pairwise_map]
      refine hs.imp_of_mem ?_
      intro a b ha hb hab
      rw [keyLe, hmem2 a ha, hmem2 b hb] at hab
      exact hab

/-! ### `strip` is idempotent -/

theorem dropWhile_self {α : Type} (p : α → Bool) (l : List α) :
    (l.dropWhile p).dropWhile p = l.dropWhile p := by
  induction l with
  | nil => rfl
  | cons a t ih =>
    by_cases h : p a = true
    · simp [List.dropWhile, h, ih]
    · rw [Bool.not_eq_true] at h
      simp [List.dropWhile, h]

theorem head_dropWhile_not {α : Type} (p : α → Bool) (l : List α) {a : α} {t : List α}
    (h : l.dropWhile p = a :: t) : p a = false := by
  induction l with
  | nil => cases h
  | cons b r ih =>
    by_cases hb : p b = true
    · rw [List.dropWhile_cons_of_pos hb] at h
      exact ih h
    · rw [Bool.not_eq_true] at hb
      rw [List.dropWhile_cons_of_neg (by simp [hb])] at h
      injection h with h1 h2
      rw [← h1]
      exact hb

theorem stripChars_idem (l : List Char) : stripChars (stripChars l) = stripChars l := by
  unfold stripChars
  have hstep1 : ((l.dropWhile isPySpace).reverse.dropWhile isPySpace).reverse.dropWhile
      isPySpace = ((l.dropWhile isPySpace).reverse.dropWhile isPySpace).reverse := by
    cases hmr : ((l.dropWhile isPySpace).reverse.dropWhile isPySpace).reverse with
    | nil => rfl
    | cons a t =>
      have hsuf : (l.dropWhile isPySpace).reverse.dropWhile isPySpace <:+
          (l.dropWhile isPySpace).reverse := List.dropWhile_suffix isPySpace
      have hpre : ((l.dropWhile isPySpace).reverse.dropWhile isPySpace).reverse <+:
          (l.dropWhile isPySpace) := by
        have h0 := List.reverse_prefix.mpr hsuf
        rwa [List.reverse_reverse] at h0
      obtain ⟨t2, ht2⟩ := hpre
      rw [hmr] at ht2
      have hdw : l.dropWhile isPySpace = a :: (t ++ t2) := by
        rw [← ht2]
        rfl
      have ha : isPySpace a = false := head_dropWhile_not isPySpace l hdw
      exact List.dropWhile_cons_of_neg (by simp [ha])
  rw [hstep1, List.reverse_reverse, dropWhile_self]

/-! ### Evaluating `list_posts` -/

theorem list_posts_core_eq (posts : Posts) (q : QueryParams) :
    list_posts_core posts q =
      Except.bind (search_posts posts (stripChars ((q.search.getD "").data)))
        (fun result1 =>
          if q.sort.getD "" ≠ "" then
            if q.direction.getD "asc" ≠ "asc" ∧ q.direction.getD "asc" ≠ "desc" then
              Except.ok invalidDirection
            else
              Except.bind (sort_posts result1 (q.sort.getD "") (q.direction.getD "asc"))
                (fun result2 => Except.ok ⟨200, .postArr result2⟩)
          else Except.ok ⟨200, .postArr result1⟩) := rfl

theorem specFiltered_subset {posts : Posts} {qy : List Char} :
    ∀ p ∈ specFiltered posts qy, p ∈ posts := by
  intro p hp
  unfold specFiltered at hp
  by_cases he : qy.isEmpty
  · rw [if_pos he] at hp
    exact hp
  · rw [if_neg he] at hp
    exact List.mem_of_mem_filter hp

theorem list_posts_eval {posts : Posts} {q : QueryParams} (h : StrFields posts) :
    (q.sort.getD "" = "" →
      list_posts posts q =
        (⟨200, .postArr (specFiltered posts (stripChars ((q.search.getD "").data)))⟩,
         posts)) ∧
    (q.sort.getD "" ≠ "" → q.direction.getD "asc" ≠ "asc" →
      q.direction.getD "asc" ≠ "desc" →
      list_posts posts q = (invalidDirection, posts)) ∧
    (q.sort.getD "" ≠ "" →
      (q.direction.getD "asc" = "asc" ∨ q.direction.getD "asc" = "desc") →
      ∃ L, sort_posts (specFiltered posts (stripChars ((q.search.getD "").data)))
             (q.sort.getD "") (q.direction.getD "asc") = .ok L ∧
           list_posts posts q = (⟨200, .postArr L⟩, posts)) := by
  have hsearch := @search_posts_ok posts (stripChars ((q.search.getD "").data)) h
  refine ⟨?_, ?_, ?_⟩
  · intro hsf
    unfold list_posts
    rw [list_posts_core_eq, hsearch, excBind_ok, if_neg (fun hc => hc hsf)]
  · intro hsf hd1 hd2
    unfold list_posts
    rw [list_posts_core_eq, hsearch, excBind_ok, if_pos hsf, if_pos ⟨hd1, hd2⟩]
  · intro hsf hd
    have hnotbad : ¬ (q.direction.getD "asc" ≠ "asc" ∧ q.direction.getD "asc" ≠ "desc") := by
      intro hcon
      rcases hd with ha | hdc
      · exact hcon.1 ha
      · exact hcon.2 hdc
    by_cases hf : q.sort.getD "" = "title" ∨ q.sort.getD "" = "content"
    · have hstr : ∀ p ∈ specFiltered posts (stripChars ((q.search.getD "").data)),
          strField p (q.sort.getD "") = true := by
        intro p hp
        have hmem := specFiltered_subset p hp
        rcases hf with hft | hfc
        · rw [hft]
          exact (h p hmem).1
        · rw [hfc]
          exact (h p hmem).2
      obtain ⟨L, hL, -, -, -⟩ := sort_posts_ok (d := q.direction.getD "asc") hf hstr
      refine ⟨L, hL, ?_⟩
      unfold list_posts
      rw [list_posts_core_eq, hsearch, excBind_ok, if_pos hsf, if_neg hnotbad, hL,
        excBind_ok]
    · refine ⟨specFiltered posts (stripChars ((q.search.getD "").data)),
        sort_posts_other hf, ?_⟩
      unfold list_posts
      rw [list_posts_core_eq, hsearch, excBind_ok, if_pos hsf, if_neg hnotbad,
        sort_posts_other hf, excBind_ok]

/-! ### Handler state shapes -/

theorem list_posts_snd (posts : Posts) (q : QueryParams) :
    (list_posts posts q).2 = posts := by
  unfold list_posts
  cases list_posts_core posts q <;> rfl

theorem add_post_state (posts : Posts) (b : Option Post) :
    (add_post posts b).2 = posts ∨
    ∃ new0 m, b = some new0 ∧ maxIds posts = .ok m ∧
      (add_post posts b).2 = posts ++ [dictSet new0 "id" (.num (m + 1))] := by
  cases b with
  | none => left; rfl
  | some new0 =>
    by_cases he : new0.isEmpty
    · left
      simp [add_post, he]
    · by_cases hm : ((if dictHas new0 "title" then [] else ["title"]) ++
        (if dictHas new0 "content" then [] else ["content"]) : List String).isEmpty
      · cases hmx : maxIds posts with
        | error e =>
          left
          simp [add_post, he, hm, hmx]
        | ok m =>
          right
          exact ⟨new0, m, rfl, rfl, by simp [add_post, he, hm, hmx]⟩
      · left
        simp [add_post, he, hm]

theorem update_post_state (posts : Posts) (pid : Int) (b : Option Post) :
    (update_post posts pid b).2 = posts ∨
    ∃ upd p2 posts2, b = some upd ∧
      upd_loop upd pid posts = .ok (some (p2, posts2)) ∧
      (update_post posts pid b).2 = posts2 := by
  cases b with
  | none => left; rfl
  | some upd =>
    by_cases he : upd.isEmpty
    · left
      simp [update_post, he]
    · cases hu : upd_loop upd pid posts with
      | error e =>
        left
        simp [update_post, he, hu]
      | ok r =>
        cases r with
        | none =>
          left
          simp [update_post, he, hu]
        | some pr =>
          obtain ⟨p2, posts2⟩ := pr
          right
          exact ⟨upd, p2, posts2, rfl, hu, by simp [update_post, he, hu]⟩

theorem delete_post_state (posts : Posts) (pid : Int) :
    (delete_post posts pid).2 = posts ∨
    ∃ posts2, del_loop pid posts = .ok (some posts2) ∧
      (delete_post posts pid).2 = posts2 := by
  cases hd : del_loop pid posts with
  | error e =>
    left
    simp [delete_post, hd]
  | ok r =>
    cases r with
    | none =>
      left
      simp [delete_post, hd]
    | some posts2 =>
      right
      exact ⟨posts2, rfl, by simp [delete_post, hd]⟩

/-! ### Claims -/

/-- C9: GET `/api/posts` never modifies the collection, for any combination
of `search`, `sort` and `direction` parameters: the handler works on a copy,
the filter builds a new list and `sorted` returns a new list, so the stored
posts come back unchanged, on the success paths as well as on the 400 and
500 paths. -/
theorem c9_get_preserves_state (posts : Posts) (q : QueryParams) :
    (handle posts (.get q)).2 = posts :=
  list_posts_snd posts q

/-- C10: the search query is stripped of surrounding whitespace before
matching: a GET with query `s` behaves exactly like a GET with the stripped
query, and a whitespace-only query together with an absent `sort` returns
the full collection with status 200. -/
theorem c10_search_strip (posts : Posts) (s : String) (so di : Option String) :
    handle posts (.get ⟨some s, so, di⟩) =
      handle posts (.get ⟨some (String.mk (stripChars s.data)), so, di⟩) ∧
    (stripChars s.data = [] → so = none →
      handle posts (.get ⟨some s, so, di⟩) = (⟨200, .postArr posts⟩, posts)) := by
  constructor
  · show list_posts posts _ = list_posts posts _
    unfold list_posts
    rw [list_posts_core_eq, list_posts_core_eq]
    have hq : ((⟨some (String.mk (stripChars s.data)), so, di⟩ :
        QueryParams).search.getD "").data = stripChars s.data := rfl
    rw [hq, stripChars_idem]
    rfl
  · intro hstrip hso
    show list_posts posts _ = _
    unfold list_posts
    rw [list_posts_core_eq]
    have hq : ((⟨some s, so, di⟩ : QueryParams).search.getD "").data = s.data := rfl
    rw [hq, hstrip]
    subst hso
    rfl

/-- C7: a PUT with a non-empty body or a DELETE for an id no post carries
answers 404 with the exact message `Kein Post mit ID {id} vorhanden.` and
leaves the collection untouched; repeating the DELETE gives 404 again.
(The posts are assumed to carry integer ids, as every reachable collection
does; a post without an `"id"` key would raise and give a 500 instead.) -/
theorem c7_not_found (posts : Posts) (pid : Int) (body : Post)
    (hall : AllIntIds posts) (habs : ∀ p ∈ posts, ¬ hasId p pid)
    (hne : body ≠ []) :
    update_post posts pid (some body) = (notFound pid, posts) ∧
    delete_post posts pid = (notFound pid, posts) ∧
    delete_post (delete_post posts pid).2 pid = (notFound pid, posts) ∧
    bodyGet (notFound pid).body "message" =
      some (.str ("Kein Post mit ID " ++ toString pid ++ " vorhanden.")) ∧
    (notFound pid).status = 404 := by
  have hupd := upd_loop_none body pid posts hall habs
  have hdel := del_loop_none pid posts hall habs
  have hne2 : body.isEmpty = false := by
    cases body with
    | nil => exact absurd rfl hne
    | cons kv rest => rfl
  have h2 : delete_post posts pid = (notFound pid, posts) := by
    simp [delete_post, hdel]
  refine ⟨?_, h2, ?_, rfl, rfl⟩
  · simp [update_post, hne2, hupd]
  · rw [h2]
    exact h2

/-- C8: a DELETE for an id some post carries removes the first such post
(the rest keeping their order), answers 200 with the exact message
`Post with id {id} has been deleted successfully.`, and a subsequent GET
without parameters returns the remaining collection, which no longer
contains a post with that id (ids being unique). -/
theorem c8_delete (l1 : Posts) (p : Post) (l2 : Posts) (pid : Int)
    (hall : AllIntIds (l1 ++ p :: l2)) (hdist : DistinctIds (l1 ++ p :: l2))
    (h1 : ∀ q ∈ l1, ¬ hasId q pid) (hp : hasId p pid) :
    delete_post (l1 ++ p :: l2) pid =
      (⟨200, .errObj [("message", .str ("Post with id " ++ toString pid ++
        " has been deleted successfully."))]⟩, l1 ++ l2) ∧
    (handle (l1 ++ l2) (.get ⟨none, none, none⟩)).1 = ⟨200, .postArr (l1 ++ l2)⟩ ∧
    ∀ q ∈ l1 ++ l2, ¬ hasId q pid := by
  have hint1 : ∀ q ∈ l1, hasIntId q = true :=
    fun q hq => hall q (List.mem_append_left _ hq)
  have hdel := del_loop_found pid l1 p l2 hint1 h1 hp
  refine ⟨?_, rfl, ?_⟩
  · simp [delete_post, hdel]
  · intro q hq
    rcases List.mem_append.mp hq with hql | hqr
    · exact h1 q hql
    · intro hcon
      have hpw : (l1 ++ p :: l2).Pairwise
          (fun a b => dictGet a "id" ≠ dictGet b "id") := by
        unfold DistinctIds idsOf at hdist
        exact List.pairwise_map.mp hdist
      have hmid := (List.pairwise_append.mp hpw).2.1
      have hrel := (List.pairwise_cons.mp hmid).1 q hqr
      unfold hasId at hp hcon
      rw [hp, hcon] at hrel
      exact hrel rfl

/-- C1, counterexample: the claim says a POST with body `{}` yields a 400
whose body lists both `title` and `content` in `missing_fields`. On the
code, `if not new_post` treats the empty dict as "no data sent": the
response is indeed 400, but its body is the `Keine Daten gesendet` error
and carries no `missing_fields` key at all. -/
theorem c1_counterexample :
    (add_post POSTS (some [])).1.status = 400 ∧
    bodyGet (add_post POSTS (some [])).1.body "missing_fields" = none ∧
    bodyGet (add_post POSTS (some [])).1.body "error" =
      some (.str "Keine Daten gesendet") := by
  decide

/-- C1, amended: a POST with the empty object `{}` is answered like a
missing body, 400 with `Keine Daten gesendet` and no `missing_fields`;
for every non-empty supplied body in which `title` or `content` is absent,
the response is 400 and `missing_fields` reports exactly the absent ones
of the two, leaving the collection unchanged in both cases. -/
theorem c1_missing_fields (posts : Posts) (body : Post) (hne : body ≠ [])
    (hmiss : dictHas body "title" = false ∨ dictHas body "content" = false) :
    add_post posts (some []) = (noDataError, posts) ∧
    (add_post posts (some body)).1.status = 400 ∧
    (add_post posts (some body)).2 = posts ∧
    ∃ ms, bodyGet (add_post posts (some body)).1.body "missing_fields" =
        some (.strList ms) ∧
      ("title" ∈ ms ↔ dictHas body "title" = false) ∧
      ("content" ∈ ms ↔ dictHas body "content" = false) := by
  have hne2 : body.isEmpty = false := by
    cases body with
    | nil => exact absurd rfl hne
    | cons kv rest => rfl
  refine ⟨rfl, ?_⟩
  by_cases ht : dictHas body "title" = true
  · have hc : dictHas body "content" = false := by
      rcases hmiss with hm | hm
      · rw [ht] at hm; cases hm
      · exact hm
    refine ⟨?_, ?_, ["content"], ?_, ?_, ?_⟩ <;>
      simp [add_post, hne2, ht, hc, bodyGet, errGet]
  · rw [Bool.not_eq_true] at ht
    by_cases hc : dictHas body "content" = true
    · refine ⟨?_, ?_, ["title"], ?_, ?_, ?_⟩ <;>
        simp [add_post, hne2, ht, hc, bodyGet, errGet]
    · rw [Bool.not_eq_true] at hc
      refine ⟨?_, ?_, ["title", "content"], ?_, ?_, ?_⟩ <;>
        simp [add_post, hne2, ht, hc, bodyGet, errGet]

/-- C1, witness: the amended claim at the seed collection with the body
`{"title": "T"}` (content missing). -/
theorem c1_witness :
    add_post POSTS (some []) = (noDataError, POSTS) ∧
    (add_post POSTS (some [("title", JVal.str "T")])).1.status = 400 ∧
    (add_post POSTS (some [("title", JVal.str "T")])).2 = POSTS ∧
    ∃ ms, bodyGet (add_post POSTS (some [("title", JVal.str "T")])).1.body
        "missing_fields" = some (.strList ms) ∧
      ("title" ∈ ms ↔ dictHas [("title", JVal.str "T")] "title" = false) ∧
      ("content" ∈ ms ↔ dictHas [("title", JVal.str "T")] "content" = false) :=
  c1_missing_fields POSTS [("title", JVal.str "T")] (by decide) (by decide)

/-- C2: a POST whose (non-empty) body supplies both `title` and `content`
creates the post: the assigned id is 1 + the maximum id currently stored
(`specMaxId`, which is 0 for the empty collection, so the first id is 1),
the new record is appended so the length grows by exactly one, and the
201 response carries the created record with its id. (The stored posts
are assumed to carry integer ids, as every reachable collection does.) -/
theorem c2_create (posts : Posts) (body : Post)
    (hall : AllIntIds posts)
    (ht : dictHas body "title" = true) (hc : dictHas body "content" = true) :
    (add_post posts (some body)).1 =
      ⟨201, .postObj (dictSet body "id" (.num (specMaxId posts + 1)))⟩ ∧
    (add_post posts (some body)).2 =
      posts ++ [dictSet body "id" (.num (specMaxId posts + 1))] ∧
    (add_post posts (some body)).2.length = posts.length + 1 ∧
    dictGet (dictSet body "id" (.num (specMaxId posts + 1))) "id" =
      some (.num (specMaxId posts + 1)) ∧
    (posts = [] → specMaxId posts + 1 = 1) := by
  have hne2 : body.isEmpty = false := by
    cases body with
    | nil => cases ht
    | cons kv rest => rfl
  have hmax := maxIds_ok posts hall
  have h1 : (add_post posts (some body)).1 =
      ⟨201, .postObj (dictSet body "id" (.num (specMaxId posts + 1)))⟩ := by
    simp [add_post, hne2, ht, hc, hmax]
  have h2 : (add_post posts (some body)).2 =
      posts ++ [dictSet body "id" (.num (specMaxId posts + 1))] := by
    simp [add_post, hne2, ht, hc, hmax]
  refine ⟨h1, h2, ?_, dictGet_set_self body "id" _, ?_⟩
  · rw [h2]
    simp
  · intro hnil
    subst hnil
    rfl

/-- C2, witness: creating a post on the seed collection assigns id 4. -/
theorem c2_witness :
    (add_post POSTS (some [("title", JVal.str "T"), ("content", JVal.str "C")])).1 =
      ⟨201, .postObj (dictSet [("title", JVal.str "T"), ("content", JVal.str "C")]
        "id" (.num (specMaxId POSTS + 1)))⟩ ∧
    (add_post POSTS (some [("title", JVal.str "T"), ("content", JVal.str "C")])).2 =
      POSTS ++ [dictSet [("title", JVal.str "T"), ("content", JVal.str "C")]
        "id" (.num (specMaxId POSTS + 1))] ∧
    (add_post POSTS (some [("title", JVal.str "T"), ("content", JVal.str "C")])).2.length =
      POSTS.length + 1 ∧
    dictGet (dictSet [("title", JVal.str "T"), ("content", JVal.str "C")]
        "id" (.num (specMaxId POSTS + 1))) "id" = some (.num (specMaxId POSTS + 1)) ∧
    (POSTS = [] → specMaxId POSTS + 1 = 1) :=
  c2_create POSTS [("title", JVal.str "T"), ("content", JVal.str "C")]
    (by decide) (by decide) (by decide)

/-- C3: pairwise-distinct ids are an invariant of every request: GET leaves
the collection unchanged, POST only ever appends a post whose id exceeds
the current maximum, PUT never writes the `id` key of any post, and DELETE
only removes a post. -/
theorem c3_unique_ids (posts : Posts) (r : Request) (h : DistinctIds posts) :
    DistinctIds (handle posts r).2 := by
  cases r with
  | get q =>
    show DistinctIds (list_posts posts q).2
    rw [list_posts_snd]
    exact h
  | post b =>
    show DistinctIds (add_post posts b).2
    rcases add_post_state posts b with hst | ⟨new0, m, -, hmx, hst⟩
    · rw [hst]; exact h
    · rw [hst]
      unfold DistinctIds idsOf at h ⊢
      rw [List.map_append, List.pairwise_append]
      refine ⟨h, List.pairwise_singleton _ _, ?_⟩
      intro x hx y hy
      obtain ⟨p, hp, rfl⟩ := List.mem_map.mp hx
      rw [List.map_singleton, List.mem_singleton] at hy
      subst hy
      obtain ⟨n, hn, hle⟩ := maxIds_bound posts m hmx p hp
      rw [hn, dictGet_set_self]
      intro hcon
      injection hcon with hcon2
      injection hcon2 with hcon3
      omega
  | put pid b =>
    show DistinctIds (update_post posts pid b).2
    rcases update_post_state posts pid b with hst | ⟨upd, p2, posts2, -, hu, hst⟩
    · rw [hst]; exact h
    · rw [hst]
      unfold DistinctIds
      rw [upd_loop_ids upd pid posts p2 posts2 hu]
      exact h
  | delete pid =>
    show DistinctIds (delete_post posts pid).2
    rcases delete_post_state posts pid with hst | ⟨posts2, hd, hst⟩
    · rw [hst]; exact h
    · rw [hst]
      unfold DistinctIds idsOf at h ⊢
      exact List.Pairwise.sublist ((del_loop_sublist pid posts posts2 hd).map _) h

/-- C3, witness: a POST on the seed collection keeps the ids distinct. -/
theorem c3_witness :
    DistinctIds POSTS ∧
    DistinctIds (handle POSTS
      (.post (some [("title", JVal.str "T"), ("content", JVal.str "C")]))).2 :=
  ⟨by decide, c3_unique_ids POSTS
    (.post (some [("title", JVal.str "T"), ("content", JVal.str "C")])) (by decide)⟩

/-- C7, witness: PUT and DELETE for the unknown id 999 on the seed
collection answer 404 and change nothing; the repeated DELETE answers 404
again. -/
theorem c7_witness :
    update_post POSTS 999 (some [("title", JVal.str "x")]) = (notFound 999, POSTS) ∧
    delete_post POSTS 999 = (notFound 999, POSTS) ∧
    delete_post (delete_post POSTS 999).2 999 = (notFound 999, POSTS) ∧
    bodyGet (notFound 999).body "message" =
      some (.str ("Kein Post mit ID " ++ toString (999 : Int) ++ " vorhanden.")) ∧
    (notFound 999).status = 404 :=
  c7_not_found POSTS 999 [("title", JVal.str "x")] (by decide) (by decide) (by decide)

/-- C8, witness: deleting id 2 from the seed collection. -/
theorem c8_witness :
    delete_post ([POSTS[0]] ++ POSTS[1] :: [POSTS[2]]) 2 =
      (⟨200, .errObj [("message", .str ("Post with id " ++ toString (2 : Int) ++
        " has been deleted successfully."))]⟩, [POSTS[0]] ++ [POSTS[2]]) ∧
    (handle ([POSTS[0]] ++ [POSTS[2]]) (.get ⟨none, none, none⟩)).1 =
      ⟨200, .postArr ([POSTS[0]] ++ [POSTS[2]])⟩ ∧
    ∀ q ∈ [POSTS[0]] ++ [POSTS[2]], ¬ hasId q 2 :=
  c8_delete [POSTS[0]] POSTS[1] [POSTS[2]] 2 (by decide) (by decide)
    (by decide) (by decide)

/-- C6: a PUT with a non-empty body on an existing id merges every key of
the body except `id` into the first post with that id (the body's value
winning), leaves every field the body does not name unchanged, never
changes the post's id even when the body carries an `id` key, leaves all
other posts untouched, and answers 200 with the updated post. (The stored
posts are assumed to carry integer ids; the body, being a Python dict,
has pairwise-distinct keys.) -/
theorem c6_update_merge (l1 : Posts) (p : Post) (l2 : Posts) (pid : Int) (body : Post)
    (hall : AllIntIds (l1 ++ p :: l2))
    (h1 : ∀ q ∈ l1, ¬ hasId q pid) (hp : hasId p pid)
    (hne : body ≠ []) (hnd : (body.map Prod.fst).Nodup) :
    (update_post (l1 ++ p :: l2) pid (some body)).1 =
      ⟨200, .postObj (mergePost p body)⟩ ∧
    (update_post (l1 ++ p :: l2) pid (some body)).2 = l1 ++ mergePost p body :: l2 ∧
    dictGet (mergePost p body) "id" = dictGet p "id" ∧
    (∀ k v, (k, v) ∈ body → k ≠ "id" → dictGet (mergePost p body) k = some v) ∧
    (∀ k, (∀ v, (k, v) ∉ body) → dictGet (mergePost p body) k = dictGet p k) := by
  have hne2 : body.isEmpty = false := by
    cases body with
    | nil => exact absurd rfl hne
    | cons kv rest => rfl
  have hint1 : ∀ q ∈ l1, hasIntId q = true :=
    fun q hq => hall q (List.mem_append_left _ hq)
  have hu := upd_loop_found body pid l1 p l2 hint1 h1 hp
  refine ⟨?_, ?_, mergePost_get_id body p, ?_, ?_⟩
  · simp [update_post, hne2, hu]
  · simp [update_post, hne2, hu]
  · intro k v hkv hk
    exact mergePost_get_mem body p k v hnd hkv hk
  · intro k hk
    exact mergePost_get_not_mem body p k hk

/-- C6, witness: PUT on id 1 of the seed collection with a body that
renames the title and tries to overwrite the id. -/
theorem c6_witness :
    (update_post ([] ++ POSTS[0] :: [POSTS[1], POSTS[2]]) 1
        (some [("title", JVal.str "New"), ("id", JVal.num 99)])).1 =
      ⟨200, .postObj (mergePost POSTS[0]
        [("title", JVal.str "New"), ("id", JVal.num 99)])⟩ ∧
    (update_post ([] ++ POSTS[0] :: [POSTS[1], POSTS[2]]) 1
        (some [("title", JVal.str "New"), ("id", JVal.num 99)])).2 =
      [] ++ mergePost POSTS[0]
        [("title", JVal.str "New"), ("id", JVal.num 99)] :: [POSTS[1], POSTS[2]] ∧
    dictGet (mergePost POSTS[0]
        [("title", JVal.str "New"), ("id", JVal.num 99)]) "id" =
      dictGet POSTS[0] "id" ∧
    (∀ k v, (k, v) ∈ ([("title", JVal.str "New"), ("id", JVal.num 99)] : Post) →
      k ≠ "id" →
      dictGet (mergePost POSTS[0] [("title", JVal.str "New"), ("id", JVal.num 99)]) k =
        some v) ∧
    (∀ k, (∀ v, (k, v) ∉ ([("title", JVal.str "New"), ("id", JVal.num 99)] : Post)) →
      dictGet (mergePost POSTS[0] [("title", JVal.str "New"), ("id", JVal.num 99)]) k =
        dictGet POSTS[0] k) :=
  c6_update_merge [] POSTS[0] [POSTS[1], POSTS[2]] 1
    [("title", JVal.str "New"), ("id", JVal.num 99)]
    (by decide) (by decide) (by decide) (by decide) (by decide)

/-- C4: a GET answers 400 exactly when the `sort` parameter is supplied
non-empty and the effective `direction` (defaulting to `asc`) is neither
`asc` nor `desc`; with `sort` absent any `direction` value gives 200, and
with `direction` absent the `asc` default applies, so the answer is 200.
(The stored `title`/`content` fields are assumed to be strings, as for
every reachable collection; a non-string field would give a 500, which the
spec files under "unexpected failure".) -/
theorem c4_direction_validation (posts : Posts) (q : QueryParams)
    (h : StrFields posts) :
    ((handle posts (.get q)).1.status = 400 ↔
      (q.sort.getD "" ≠ "" ∧ q.direction.getD "asc" ≠ "asc" ∧
       q.direction.getD "asc" ≠ "desc")) ∧
    (q.sort = none → (handle posts (.get q)).1.status = 200) ∧
    (q.direction = none → (handle posts (.get q)).1.status = 200) := by
  obtain ⟨h1, h2, h3⟩ := list_posts_eval (q := q) h
  have hget : handle posts (.get q) = list_posts posts q := rfl
  refine ⟨?_, ?_, ?_⟩
  · constructor
    · intro hst
      by_cases hsf : q.sort.getD "" = ""
      · rw [hget, h1 hsf] at hst
        cases hst
      · by_cases hd : q.direction.getD "asc" = "asc" ∨ q.direction.getD "asc" = "desc"
        · obtain ⟨L, -, hL⟩ := h3 hsf hd
          rw [hget, hL] at hst
          cases hst
        · push_neg at hd
          exact ⟨hsf, hd.1, hd.2⟩
    · rintro ⟨hsf, hd1, hd2⟩
      rw [hget, h2 hsf hd1 hd2]
      rfl
  · intro hso
    have hsf : q.sort.getD "" = "" := by rw [hso]; rfl
    rw [hget, h1 hsf]
  · intro hdo
    have hd : q.direction.getD "asc" = "asc" := by rw [hdo]; rfl
    by_cases hsf : q.sort.getD "" = ""
    · rw [hget, h1 hsf]
    · obtain ⟨L, -, hL⟩ := h3 hsf (Or.inl hd)
      rw [hget, hL]

/-- C4, witness: on the seed collection, `sort=title&direction=bogus` gives
400, and `sort` absent with `direction=bogus` gives 200. -/
theorem c4_witness :
    (((handle POSTS (.get ⟨none, some "title", some "bogus"⟩)).1.status = 400 ↔
      ((⟨none, some "title", some "bogus"⟩ : QueryParams).sort.getD "" ≠ "" ∧
       (⟨none, some "title", some "bogus"⟩ : QueryParams).direction.getD "asc" ≠ "asc" ∧
       (⟨none, some "title", some "bogus"⟩ : QueryParams).direction.getD "asc" ≠ "desc"))) ∧
    (handle POSTS (.get ⟨some "x", none, some "bogus"⟩)).1.status = 200 :=
  ⟨(c4_direction_validation POSTS ⟨none, some "title", some "bogus"⟩ (by decide)).1,
   (c4_direction_validation POSTS ⟨some "x", none, some "bogus"⟩ (by decide)).2.1 rfl⟩

theorem specFiltered_strField {posts : Posts} {qy : List Char} {f : String}
    (h : StrFields posts) (hf : f = "title" ∨ f = "content") :
    ∀ p ∈ specFiltered posts qy, strField p f = true := by
  intro p hp
  have hmem := specFiltered_subset p hp
  rcases hf with hft | hfc
  · rw [hft]
    exact (h p hmem).1
  · rw [hfc]
    exact (h p hmem).2

/-- C5: every accepted GET (direction valid whenever a sort field is
supplied) answers 200 with the list obtained by first filtering the full
collection by the stripped search query, case-insensitively, against
`title` or `content` (`specFiltered`; an empty query keeps everything) and
then, only when `sort` is `title` or `content`, stably ordering the
filtered posts by the lowercased field value (`specKey`), descending when
`direction` is `desc` and ascending otherwise; an unrecognized sort field
is silently ignored and the filtered list is returned in stored order.
(The stored `title`/`content` fields are assumed to be strings, as for
every reachable collection.) -/
theorem c5_get_pipeline (posts : Posts) (q : QueryParams)
    (h : StrFields posts)
    (hval : q.sort.getD "" = "" ∨ q.direction.getD "asc" = "asc" ∨
      q.direction.getD "asc" = "desc") :
    ∃ L, (handle posts (.get q)).1 = ⟨200, .postArr L⟩ ∧
      ((q.sort.getD "" ≠ "title" ∧ q.sort.getD "" ≠ "content") →
        L = specFiltered posts (stripChars ((q.search.getD "").data))) ∧
      ((q.sort.getD "" = "title" ∨ q.sort.getD "" = "content") →
        L.Perm (specFiltered posts (stripChars ((q.search.getD "").data))) ∧
        (q.direction.getD "asc" = "desc" →
          L.Pairwise (fun a b =>
            charListLe (specKey (q.sort.getD "") b) (specKey (q.sort.getD "") a) =
              true)) ∧
        (q.direction.getD "asc" ≠ "desc" →
          L.Pairwise (fun a b =>
            charListLe (specKey (q.sort.getD "") a) (specKey (q.sort.getD "") b) =
              true))) := by
  obtain ⟨h1, -, h3⟩ := list_posts_eval (q := q) h
  have hget : handle posts (.get q) = list_posts posts q := rfl
  by_cases hsf : q.sort.getD "" = ""
  · refine ⟨specFiltered posts (stripChars ((q.search.getD "").data)), ?_, ?_, ?_⟩
    · rw [hget, h1 hsf]
    · intro _
      rfl
    · intro hf
      rcases hf with hf | hf <;> rw [hsf] at hf <;> exact absurd hf (by decide)
  · have hd : q.direction.getD "asc" = "asc" ∨ q.direction.getD "asc" = "desc" := by
      rcases hval with hv | hv | hv
      · exact absurd hv hsf
      · exact Or.inl hv
      · exact Or.inr hv
    obtain ⟨L, hL, heq⟩ := h3 hsf hd
    refine ⟨L, by rw [hget, heq], ?_, ?_⟩
    · intro ⟨hf1, hf2⟩
      have hother := @sort_posts_other
        (specFiltered posts (stripChars ((q.search.getD "").data)))
        (q.sort.getD "") (q.direction.getD "asc") (fun hcon => hcon.elim hf1 hf2)
      rw [hother] at hL
      injection hL with hL2
      exact hL2.symm
    · intro hf
      obtain ⟨L2, hL2, hperm, hdesc, hasc⟩ :=
        sort_posts_ok (d := q.direction.getD "asc") hf (specFiltered_strField h hf)
      rw [hL2] at hL
      injection hL with hL3
      subst hL3
      exact ⟨hperm, hdesc, hasc⟩

/-- C5, witness: searching for ` flask ` and sorting by title descending on
the seed collection. -/
theorem c5_witness :
    ∃ L, (handle POSTS (.get ⟨some " flask ", some "title", some "desc"⟩)).1 =
        ⟨200, .postArr L⟩ ∧
      (((⟨some " flask ", some "title", some "desc"⟩ : QueryParams).sort.getD "" ≠
          "title" ∧
        (⟨some " flask ", some "title", some "desc"⟩ : QueryParams).sort.getD "" ≠
          "content") →
        L = specFiltered POSTS (stripChars ((" flask " : String).data))) ∧
      (((⟨some " flask ", some "title", some "desc"⟩ : QueryParams).sort.getD "" =
          "title" ∨
        (⟨some " flask ", some "title", some "desc"⟩ : QueryParams).sort.getD "" =
          "content") →
        L.Perm (specFiltered POSTS (stripChars ((" flask " : String).data))) ∧
        ((⟨some " flask ", some "title", some "desc"⟩ : QueryParams).direction.getD
            "asc" = "desc" →
          L.Pairwise (fun a b => charListLe (specKey "title" b) (specKey "title" a) =
            true)) ∧
        ((⟨some " flask ", some "title", some "desc"⟩ : QueryParams).direction.getD
            "asc" ≠ "desc" →
          L.Pairwise (fun a b => charListLe (specKey "title" a) (specKey "title" b) =
            true))) :=
  c5_get_pipeline POSTS ⟨some " flask ", some "title", some "desc"⟩
    (by decide) (by decide)

/-- C10, witness: ` flask ` behaves like its stripped form, and the
whitespace-only query `"   "` with no sort returns the full seed
collection. -/
theorem c10_witness :
    (handle POSTS (.get ⟨some " flask ", none, none⟩) =
      handle POSTS (.get ⟨some (String.mk (stripChars ((" flask " : String).data))),
        none, none⟩)) ∧
    (handle POSTS (.get ⟨some "   ", none, none⟩) = (⟨200, .postArr POSTS⟩, POSTS)) :=
  ⟨(c10_search_strip POSTS " flask " none none).1,
   (c10_search_strip POSTS "   " none none).2 (by decide) rfl⟩
